import Mathlib

/-!
Verification development for the skill-manager core: conflict detection
(`services/conflict_service.rs`), the conflict resolution state machine
(`services/conflict_service.rs`, `domain/conflict.rs`), the skill service
(`services/skill_service.rs`), the SQLite repositories (`infra/database.rs`)
and the output storage (`infra/storage.rs`).

Strings are modelled as `List Char` (`Str`).  Rust's `str` operations that
the detector uses (`lines`, `trim`, `starts_with`, `to_lowercase`,
`split_whitespace`, `contains`, `trim_start_matches`) are embedded below.
Lowercasing is modelled per character (ASCII case mapping, which agrees with
Rust `to_lowercase` on all ASCII text); whitespace is the Unicode
`White_Space` set that Rust's `char::is_whitespace` tests.
-/

/-- Strings are modelled as lists of characters. -/
abbrev Str := List Char

/-- Embedding of Rust `char::is_whitespace`: the Unicode `White_Space` set. -/
def rustIsWhitespace (c : Char) : Bool :=
  c.toNat ∈ ([0x9, 0xA, 0xB, 0xC, 0xD, 0x20, 0x85, 0xA0, 0x1680,
    0x2000, 0x2001, 0x2002, 0x2003, 0x2004, 0x2005, 0x2006, 0x2007,
    0x2008, 0x2009, 0x200A, 0x2028, 0x2029, 0x202F, 0x205F, 0x3000] : List Nat)

/-- Embedding of Rust `str::trim_start`. -/
def trimStart (s : Str) : Str := s.dropWhile rustIsWhitespace

/-- Embedding of Rust `str::trim_end`. -/
def trimEnd (s : Str) : Str := (s.reverse.dropWhile rustIsWhitespace).reverse

/-- Embedding of Rust `str::trim`. -/
def rustTrim (s : Str) : Str := trimEnd (trimStart s)

/-- Strip one trailing carriage return, as Rust `str::lines` does on each
line that is terminated by `\r\n`. -/
def stripCr (s : Str) : Str :=
  if s.getLast? = some '\r' then s.dropLast else s

/-- Embedding of Rust `str::lines`: split at `\n`, strip a `\r` preceding
each split point, and do not produce a final empty line for a trailing
newline. -/
def rustLines (s : Str) : List Str :=
  let segs := s.splitOn '\n'
  let body := segs.dropLast.map stripCr
  match segs.getLast? with
  | some l => if l = [] then body else body ++ [l]
  | none => body

/-- Embedding of Rust `str::to_lowercase`, per-character ASCII case map. -/
def toLowercase (s : Str) : Str := s.map Char.toLower

/-- Embedding of Rust `str::trim_start_matches(c)`: remove every leading
occurrence of the character `c`. -/
def trimStartMatches (c : Char) (s : Str) : Str := s.dropWhile (· = c)

/-- Embedding of Rust `str::starts_with`. -/
def rustStartsWith (p s : Str) : Bool := p.isPrefixOf s

/-- Embedding of Rust `str::contains(substring)`. -/
def containsSubstring (needle hay : Str) : Bool :=
  needle.isPrefixOf hay ||
    match hay with
    | [] => false
    | _ :: t => containsSubstring needle t

/-- Embedding of Rust `str::split_whitespace`: maximal runs of
non-whitespace characters, in order. -/
def splitWhitespace : Str → List Str
  | [] => []
  | c :: rest =>
    let r := splitWhitespace rest
    if rustIsWhitespace c then r
    else
      match rest with
      | [] => [[c]]
      | d :: _ =>
        if rustIsWhitespace d then [c] :: r
        else
          match r with
          | [] => [[c]]
          | w :: ws => (c :: w) :: ws

/-- Conversion from a Lean string literal to the `Str` model. -/
def strL (s : String) : Str := s.data

/-- Conflict types, from `domain/conflict.rs` (`ConflictType`). -/
inductive ConflictType where
  | duplicate
  | contradictory
  | overlap
  | structural
deriving DecidableEq, Repr

/-- Conflict resolution status, from `domain/conflict.rs` (`ConflictStatus`). -/
inductive ConflictStatus where
  | unresolved
  | resolved
  | ignored
deriving DecidableEq, Repr

/-- Resolution strategies, from `domain/conflict.rs` (`ResolutionStrategy`). -/
inductive ResolutionStrategy where
  | disableSkillA
  | disableSkillB
  | prioritizeA
  | prioritizeB
  | ignoreConflict
deriving DecidableEq, Repr

/-- A conflict finding as produced by the detector: exactly the fields that
`Conflict::builder(..).build()` sets from its inputs in
`services/conflict_service.rs`.  The freshly drawn `id` (`Uuid::new_v4`) and
the clock value `detected_at` are not part of the finding; the `status` of a
built conflict is always `ConflictStatus::Unresolved` and `resolved_at` is
always `None`. -/
structure Finding where
  skillAId : Nat
  skillBId : Nat
  conflictType : ConflictType
  description : Str
  lineA : Option Nat
  lineB : Option Nat
  contentA : Option Str
  contentB : Option Str
  suggestion : Option Str
deriving DecidableEq, Repr

/-- Embedding of `extract_instructions` (`services/conflict_service.rs`):
keep the lines whose trimmed form starts with `-`, `*` or `•`, paired with
their 1-based line number, trimmed. -/
def extract_instructions (content : Str) : List (Nat × Str) :=
  (((rustLines content).enum).filter fun p =>
      let trimmed := rustTrim p.2
      rustStartsWith ['-'] trimmed || rustStartsWith ['*'] trimmed ||
        rustStartsWith ['•'] trimmed).map
    fun p => (p.1 + 1, rustTrim p.2)

/-- Embedding of `normalize_instruction` (`services/conflict_service.rs`):
trim, strip every leading `-`, then `*`, then `•`, trim again, lowercase. -/
def normalize_instruction (inst : Str) : Str :=
  toLowercase (rustTrim (trimStartMatches '•'
    (trimStartMatches '*' (trimStartMatches '-' (rustTrim inst)))))

/-- Embedding of `is_common_word` (`services/conflict_service.rs`). -/
def is_common_word (word : Str) : Bool :=
  (([ "the", "and", "for", "with", "that", "this", "from", "your", "when",
    "always", "never", "should", "must", "will", "have", "been", "being",
    "use", "using", "used" ] : List String).map strL).contains word

/-- The tokens of a line that survive `same_topic`'s filters: whitespace
tokens longer than 3 characters that are not stop words. -/
def topicTokens (s : Str) : List Str :=
  (splitWhitespace s).filter fun w => decide (3 < w.length) && ! is_common_word w

/-- Embedding of `same_topic` (`services/conflict_service.rs`).  The Rust
sets are `HashSet`s, modelled as deduplicated lists; `intersection.len()` is
the number of distinct shared tokens.  The Rust comparison
`(intersection.len() as f64 / min_len as f64) > 0.3` is modelled exactly as
`10 * intersection > 3 * min`: both counts are exact in `f64` and the
division is correctly rounded, so the two comparisons agree for every count
reachable from a list in memory. -/
def same_topic (a b : Str) : Bool :=
  let wordsA := (topicTokens a).dedup
  let wordsB := (topicTokens b).dedup
  if wordsA.isEmpty || wordsB.isEmpty then false
  else
    decide (10 * (wordsA.filter fun w => decide (w ∈ wordsB)).length >
      3 * min wordsA.length wordsB.length)

/-- The fixed antonym list `contradiction_pairs` of `find_contradictions`. -/
def contradiction_pairs : List (Str × Str) :=
  ([("always", "never"), ("must", "must not"), ("should", "should not"),
    ("required", "optional"), ("enable", "disable"), ("use", "avoid"),
    ("prefer", "avoid"), ("do", "don't"), ("do", "do not")] : List (String × String)).map
    fun p => (strL p.1, strL p.2)

/-- The duplicate finding built by `find_duplicates` for one matching line
pair: type `Duplicate`, fixed description and suggestion, both original
(trimmed, unnormalized) lines and their 1-based line numbers. -/
def duplicateFinding (aId bId : Nat) (lineA : Nat) (instA : Str) (lineB : Nat) (instB : Str) :
    Finding where
  skillAId := aId
  skillBId := bId
  conflictType := .duplicate
  description := strL "Duplicate instruction found"
  lineA := some lineA
  lineB := some lineB
  contentA := some instA
  contentB := some instB
  suggestion := some (strL "Remove from one skill or merge them")

/-- Embedding of `find_duplicates` (`services/conflict_service.rs`): for
every pair of instruction lines with equal non-empty normalized forms, one
`Duplicate` finding. -/
def find_duplicates (aId : Nat) (contentA : Str) (bId : Nat) (contentB : Str) : List Finding :=
  (extract_instructions contentA).flatMap fun pa =>
    (extract_instructions contentB).filterMap fun pb =>
      let na := normalize_instruction pa.2
      let nb := normalize_instruction pb.2
      if na = nb ∧ na ≠ [] then some (duplicateFinding aId bId pa.1 pa.2 pb.1 pb.2) else none

/-- The contradiction finding built by `find_contradictions` for a line pair
and the matched antonym pair `(wordA, wordB)`. -/
def contradictionFinding (aId bId : Nat) (lineA : Nat) (instA : Str) (lineB : Nat) (instB : Str)
    (wordA wordB : Str) : Finding where
  skillAId := aId
  skillBId := bId
  conflictType := .contradictory
  description := strL "Contradictory instructions: '" ++ wordA ++ strL "' vs '" ++ wordB ++ strL "'"
  lineA := some lineA
  lineB := some lineB
  contentA := some instA
  contentB := some instB
  suggestion := some (strL "Disable one skill or set priority")

/-- The per-antonym-pair test of `find_contradictions`: one side contains one
word of the pair and the other side the other word (in either direction),
and the two lowered lines pass the topic-overlap test.  In the Rust loop the
conflict is pushed and the loop broken at the first pair satisfying this
conjunction, which is `List.find?` with this predicate. -/
def contradictionPred (lowerA lowerB : Str) (p : Str × Str) : Bool :=
  ((containsSubstring p.1 lowerA && containsSubstring p.2 lowerB) ||
    (containsSubstring p.2 lowerA && containsSubstring p.1 lowerB)) &&
    same_topic lowerA lowerB

/-- Embedding of `find_contradictions` (`services/conflict_service.rs`): for
every pair of instruction lines, at most one `Contradictory` finding, citing
the first antonym pair in `contradiction_pairs` whose test succeeds. -/
def find_contradictions (aId : Nat) (contentA : Str) (bId : Nat) (contentB : Str) : List Finding :=
  (extract_instructions contentA).flatMap fun pa =>
    (extract_instructions contentB).filterMap fun pb =>
      let lowerA := toLowercase pa.2
      let lowerB := toLowercase pb.2
      (contradiction_pairs.find? (contradictionPred lowerA lowerB)).map fun p =>
        contradictionFinding aId bId pa.1 pa.2 pb.1 pb.2 p.1 p.2

/-- Embedding of `detect_conflicts_internal` (`services/conflict_service.rs`):
for each unordered pair `(i, j)` with `i < j` in input order, the duplicates
followed by the contradictions. -/
def detect_conflicts_internal : List (Nat × Str) → List Finding
  | [] => []
  | a :: rest =>
    (rest.flatMap fun b => find_duplicates a.1 a.2 b.1 b.2 ++ find_contradictions a.1 a.2 b.1 b.2)
      ++ detect_conflicts_internal rest

/-- Skill scope, from `domain/skill.rs` (`SkillScope`): global or tied to a
project path. -/
inductive SkillScope where
  | global
  | project (path : Str)
deriving DecidableEq, Repr

/-- A skill record, from `domain/skill.rs` (`Skill`).  `id` models the
opaque `Uuid`; timestamps are abstract instants (`Nat`).  The fields not
touched by the flows under study (`source`, `tags`, `update_mode`,
`created_at`, `description`) are represented by `contentHash` standing for
the remaining payload carried unchanged through updates. -/
structure Skill where
  id : Nat
  name : Str
  scope : SkillScope
  enabled : Bool
  priority : Int
  contentHash : Str
  updatedAt : Nat
deriving DecidableEq, Repr

/-- A stored conflict record, from `domain/conflict.rs` (`Conflict`). -/
structure Conflict where
  id : Nat
  skillAId : Nat
  skillBId : Nat
  conflictType : ConflictType
  description : Str
  lineA : Option Nat
  lineB : Option Nat
  contentA : Option Str
  contentB : Option Str
  suggestion : Option Str
  status : ConflictStatus
  detectedAt : Nat
  resolvedAt : Option Nat
deriving DecidableEq, Repr

/-- Embedding of `Conflict::resolve` (`domain/conflict.rs`): set status to
`Resolved` and `resolved_at` to the current time. -/
def Conflict.markResolved (c : Conflict) (now : Nat) : Conflict :=
  { c with status := .resolved, resolvedAt := some now }

/-- Embedding of `Conflict::ignore` (`domain/conflict.rs`): set status to
`Ignored` and `resolved_at` to the current time.  (No production caller in
the repository invokes it; only the unit test does.) -/
def Conflict.markIgnored (c : Conflict) (now : Nat) : Conflict :=
  { c with status := .ignored, resolvedAt := some now }

/-- Embedding of `Conflict::is_resolved` (`domain/conflict.rs`). -/
def Conflict.isTerminal (c : Conflict) : Bool :=
  c.status = ConflictStatus.resolved || c.status = ConflictStatus.ignored

/-- The durable state the services operate on: the skill registry rows, the
content store entries (keyed by skill id) and the conflict store rows. -/
structure StoreState where
  skills : List Skill
  contents : List (Nat × Str)
  conflicts : List Conflict
deriving DecidableEq, Repr

/-- Embedding of `SqliteSkillRepository::get` (`SELECT * FROM skills WHERE
id = ?1`, first row). -/
def getSkill (skills : List Skill) (id : Nat) : Option Skill :=
  skills.find? fun s => decide (s.id = id)

/-- Embedding of `SqliteSkillRepository::get_by_name` (`SELECT * FROM skills
WHERE name = ?1`, first row). -/
def getSkillByName (skills : List Skill) (name : Str) : Option Skill :=
  skills.find? fun s => decide (s.name = name)

/-- Embedding of `SqliteSkillRepository::update` (`UPDATE skills SET ...
WHERE id = ?1`): every row with the skill's id takes the new values. -/
def updateSkillRows (skills : List Skill) (s : Skill) : List Skill :=
  skills.map fun t => if t.id = s.id then s else t

/-- Embedding of `SqliteSkillRepository::delete` (`DELETE FROM skills WHERE
id = ?1`). -/
def deleteSkillRows (skills : List Skill) (id : Nat) : List Skill :=
  skills.filter fun s => decide (s.id ≠ id)

/-- Embedding of `SqliteConflictRepository::get` (`SELECT * FROM conflicts
WHERE id = ?1`, first row). -/
def getConflict (conflicts : List Conflict) (id : Nat) : Option Conflict :=
  conflicts.find? fun c => decide (c.id = id)

/-- Embedding of `SqliteConflictRepository::update` (`UPDATE conflicts SET
status = ?2, resolved_at = ?3 WHERE id = ?1`): only `status` and
`resolved_at` of the matching rows change. -/
def updateConflictRows (conflicts : List Conflict) (c : Conflict) : List Conflict :=
  conflicts.map fun t =>
    if t.id = c.id then { t with status := c.status, resolvedAt := c.resolvedAt } else t

/-- Errors surfaced by the services, from `utils/error.rs`. -/
inductive SvcError where
  | conflictNotFound (id : Nat)
  | skillNotFound (name : Str)
deriving DecidableEq, Repr

/-- Embedding of Rust `i32` addition as performed by the release build:
two's-complement wrap-around, the sum reduced into `[-2^31, 2^31)` with an
explicit `% 2^32`.  `Skill::priority` is an `i32` (`domain/skill.rs`), so
`skill_b.priority + 10` wraps at priorities within 10 of `i32::MAX` (a
debug build panics on the same overflow; either way the mathematical sum is
not stored there). -/
def i32WrappingAdd (x y : Int) : Int :=
  (x + y + 2 ^ 31) % 2 ^ 32 - 2 ^ 31

/-- Embedding of the strategy `match` inside `ConflictServiceImpl::resolve`
(`services/conflict_service.rs`, lines 125-158): the skill mutations each
strategy performs before the conflict is marked.  Missing skills are
tolerated (that side is a no-op).  The `+ 10` of the prioritize arms is the
`i32` addition of the source, embedded as `i32WrappingAdd`. -/
def applyStrategy (st : StoreState) (c : Conflict) : ResolutionStrategy → StoreState
  | .disableSkillA =>
    match getSkill st.skills c.skillAId with
    | some s => { st with skills := updateSkillRows st.skills { s with enabled := false } }
    | none => st
  | .disableSkillB =>
    match getSkill st.skills c.skillBId with
    | some s => { st with skills := updateSkillRows st.skills { s with enabled := false } }
    | none => st
  | .prioritizeA =>
    match getSkill st.skills c.skillAId with
    | some sa =>
      match getSkill st.skills c.skillBId with
      | some sb =>
        { st with skills :=
          updateSkillRows st.skills { sa with priority := i32WrappingAdd sb.priority 10 } }
      | none => st
    | none => st
  | .prioritizeB =>
    match getSkill st.skills c.skillAId with
    | some sa =>
      match getSkill st.skills c.skillBId with
      | some sb =>
        { st with skills :=
          updateSkillRows st.skills { sb with priority := i32WrappingAdd sa.priority 10 } }
      | none => st
    | none => st
  | .ignoreConflict => st

/-- Embedding of `ConflictServiceImpl::resolve`
(`services/conflict_service.rs`, lines 113-174): load the conflict
(`ConflictNotFound` if absent), apply the strategy's skill mutations, then
unconditionally `conflict.resolve()` and persist it.  Event publication is
fire-and-forget and `rebuild_all` writes only merge outputs, so neither
changes this state. -/
def resolveConflict (now : Nat) (st : StoreState) (conflictId : Nat)
    (strategy : ResolutionStrategy) : Except SvcError StoreState :=
  match getConflict st.conflicts conflictId with
  | none => .error (.conflictNotFound conflictId)
  | some c =>
    let st1 := applyStrategy st c strategy
    let c2 := c.markResolved now
    .ok { st1 with conflicts := updateConflictRows st1.conflicts c2 }

/-- Embedding of `ConflictServiceImpl::ignore`
(`services/conflict_service.rs`, lines 176-178): sugar for `resolve` with
the `Ignore` strategy. -/
def ignoreStored (now : Nat) (st : StoreState) (conflictId : Nat) : Except SvcError StoreState :=
  resolveConflict now st conflictId .ignoreConflict

/-- Embedding of `SkillServiceImpl::remove` (`services/skill_service.rs`,
lines 187-210): load by name (`SkillNotFound` if absent), delete the
content store entry, delete the registry row, publish the event and rebuild
the scope's merge output.  The conflict store is not touched by this flow:
`ConflictRepository::delete_by_skill` has no caller in the service. -/
def removeSkill (st : StoreState) (name : Str) : Except SvcError StoreState :=
  match getSkillByName st.skills name with
  | none => .error (.skillNotFound name)
  | some skill =>
    .ok { st with
      contents := st.contents.filter fun p => decide (p.1 ≠ skill.id),
      skills := deleteSkillRows st.skills skill.id }

/-- Embedding of `SkillServiceImpl::enable` (`services/skill_service.rs`,
lines 212-234).  The returned list records the scopes for which a merge
rebuild was triggered; the early return for an already-enabled skill
performs no repository update, publishes no event and triggers no merge. -/
def enableSkill (now : Nat) (st : StoreState) (name : Str) :
    Except SvcError (StoreState × List SkillScope) :=
  match getSkillByName st.skills name with
  | none => .error (.skillNotFound name)
  | some skill =>
    if skill.enabled then .ok (st, [])
    else
      let s2 := { skill with enabled := true, updatedAt := now }
      .ok ({ st with skills := updateSkillRows st.skills s2 }, [s2.scope])

/-- Embedding of `SkillServiceImpl::disable` (`services/skill_service.rs`,
lines 236-258), symmetric to `enableSkill`. -/
def disableSkill (now : Nat) (st : StoreState) (name : Str) :
    Except SvcError (StoreState × List SkillScope) :=
  match getSkillByName st.skills name with
  | none => .error (.skillNotFound name)
  | some skill =>
    if !skill.enabled then .ok (st, [])
    else
      let s2 := { skill with enabled := false, updatedAt := now }
      .ok ({ st with skills := updateSkillRows st.skills s2 }, [s2.scope])

/-! Helper lemmas about the repository row operations. -/

/-- Scanning a mapped list with a predicate the map preserves finds the
image of the element the original scan finds. -/
theorem find?_map_of_pred {α : Type} (f : α → α) (p : α → Bool) (l : List α)
    (hp : ∀ a, p (f a) = p a) : (l.map f).find? p = (l.find? p).map f := by
  induction l with
  | nil => rfl
  | cons t l ih => cases hpt : p t <;> simp [List.find?_cons, hp, hpt, ih]

/-- An `UPDATE skills ... WHERE id` seen through a `SELECT ... WHERE id`:
the read returns the mapped row. -/
theorem getSkill_updateSkillRows (l : List Skill) (s : Skill) (i : Nat) :
    getSkill (updateSkillRows l s) i =
      (getSkill l i).map fun t => if t.id = s.id then s else t := by
  unfold getSkill updateSkillRows
  apply find?_map_of_pred
  intro a
  by_cases h : a.id = s.id <;> simp [h]

/-- Reading a skill id other than the updated one is unaffected. -/
theorem getSkill_updateSkillRows_ne (l : List Skill) (s : Skill) (i : Nat) (h : s.id ≠ i) :
    getSkill (updateSkillRows l s) i = getSkill l i := by
  rw [getSkill_updateSkillRows]
  cases hg : getSkill l i with
  | none => rfl
  | some t =>
    have ht : t.id = i := by simpa using List.find?_some hg
    have : ¬ t.id = s.id := by rw [ht]; exact fun hh => h hh.symm
    simp [this]

/-- Reading the updated skill id returns the updated record whenever some
row with that id exists. -/
theorem getSkill_updateSkillRows_self (l : List Skill) (s : Skill) :
    getSkill (updateSkillRows l s) s.id = (getSkill l s.id).map fun _ => s := by
  rw [getSkill_updateSkillRows]
  cases hg : getSkill l s.id with
  | none => rfl
  | some t =>
    have ht : t.id = s.id := by simpa using List.find?_some hg
    simp [ht]

/-- The id of a row returned by `getSkill`. -/
theorem getSkill_eq_id {l : List Skill} {i : Nat} {s : Skill} (h : getSkill l i = some s) :
    s.id = i := by
  simpa using List.find?_some h

/-- An `UPDATE conflicts SET status, resolved_at WHERE id` seen through a
`SELECT ... WHERE id`. -/
theorem getConflict_updateConflictRows (l : List Conflict) (c2 : Conflict) (i : Nat) :
    getConflict (updateConflictRows l c2) i =
      (getConflict l i).map fun t =>
        if t.id = c2.id then { t with status := c2.status, resolvedAt := c2.resolvedAt } else t := by
  unfold getConflict updateConflictRows
  apply find?_map_of_pred
  intro a
  by_cases h : a.id = c2.id <;> simp [h]

/-- Updating conflict rows preserves the stored ids. -/
theorem updateConflictRows_ids (l : List Conflict) (c2 : Conflict) :
    (updateConflictRows l c2).map Conflict.id = l.map Conflict.id := by
  unfold updateConflictRows
  rw [List.map_map]
  apply List.map_congr_left
  intro a _
  by_cases h : a.id = c2.id <;> simp [h]

/-- The strategy side effects never touch the conflict store. -/
theorem applyStrategy_conflicts (st : StoreState) (c : Conflict) (strategy : ResolutionStrategy) :
    (applyStrategy st c strategy).conflicts = st.conflicts := by
  cases strategy <;> simp only [applyStrategy] <;> (repeat' split) <;> rfl

/-- The id of a row returned by `getConflict`. -/
theorem getConflict_eq_id {l : List Conflict} {i : Nat} {c : Conflict}
    (h : getConflict l i = some c) : c.id = i := by
  simpa using List.find?_some h

/-! Concrete fixtures used by the evaluation theorems and witnesses. -/

/-- An enabled global skill with id 1 and name `a`. -/
def exSkillA : Skill :=
  { id := 1, name := strL "a", scope := .global, enabled := true, priority := 50,
    contentHash := strL "h1", updatedAt := 0 }

/-- A disabled global skill with id 2 and name `b`. -/
def exSkillB : Skill :=
  { id := 2, name := strL "b", scope := .global, enabled := false, priority := 50,
    contentHash := strL "h2", updatedAt := 0 }

/-- An unresolved duplicate conflict between skills 1 and 2. -/
def exConflictUnresolved : Conflict :=
  { id := 7, skillAId := 1, skillBId := 2, conflictType := .duplicate,
    description := strL "Duplicate instruction found", lineA := some 1, lineB := some 1,
    contentA := some (strL "- x"), contentB := some (strL "- x"),
    suggestion := some (strL "Remove from one skill or merge them"),
    status := .unresolved, detectedAt := 3, resolvedAt := none }

/-- A store with both skills, their contents, and the unresolved conflict. -/
def exStore : StoreState :=
  { skills := [exSkillA, exSkillB], contents := [(1, strL "- x"), (2, strL "- x")],
    conflicts := [exConflictUnresolved] }

/-- The conflict of `exConflictUnresolved` already in the terminal `Ignored`
state, with `resolved_at` 100. -/
def exConflictIgnored : Conflict :=
  { exConflictUnresolved with status := .ignored, resolvedAt := some 100 }

/-- A store whose only conflict is already terminal (`Ignored`). -/
def exStoreIgnored : StoreState :=
  { exStore with conflicts := [exConflictIgnored] }

/-- C1: the `Ignore` strategy performs no skill mutation and sets
`resolved_at`, but the service marks the conflict `Resolved`, not `Ignored`:
`ConflictServiceImpl::resolve` unconditionally calls `Conflict::resolve()`
after the strategy match, even for `Ignore` (whose own comment says "just
mark as ignored"), and `Conflict::ignore()` is never called in production
code.  Evaluated at a concrete store. -/
theorem ignore_strategy_sets_resolved_status :
    ignoreStored 5 exStore 7 =
      .ok { exStore with conflicts := [exConflictUnresolved.markResolved 5] } ∧
    (exConflictUnresolved.markResolved 5).status = ConflictStatus.resolved ∧
    (exConflictUnresolved.markResolved 5).status ≠ ConflictStatus.ignored ∧
    (exConflictUnresolved.markResolved 5).resolvedAt = some 5 := by
  refine ⟨rfl, rfl, by decide, rfl⟩

/-- C2 (counterexample): a conflict already in the terminal `Ignored` state
with `resolved_at = 100` is re-resolved at time 200: the call succeeds, the
status moves `Ignored → Resolved`, and `resolved_at` is overwritten to 200 —
both transitions the claim forbids. -/
theorem reresolve_overwrites_terminal_conflict :
    exConflictIgnored.isTerminal = true ∧
    (getConflict exStoreIgnored.conflicts 7).map Conflict.resolvedAt = some (some 100) ∧
    (getConflict exStoreIgnored.conflicts 7).map Conflict.status = some ConflictStatus.ignored ∧
    resolveConflict 200 exStoreIgnored 7 .ignoreConflict =
      .ok { exStoreIgnored with
        conflicts := [{ exConflictIgnored with status := .resolved, resolvedAt := some 200 }] } ∧
    (some (200 : Nat) ≠ some (100 : Nat)) ∧
    ConflictStatus.resolved ≠ ConflictStatus.ignored := by
  refine ⟨rfl, rfl, rfl, rfl, by decide, by decide⟩

/-- C2 (amended): resolving an already-terminal conflict again is accepted
without error and does not corrupt the store (the set of stored conflict ids
is unchanged), but it is not a no-op: the strategy's side effect is
re-applied and the conflict is overwritten to status `Resolved` (even from
`Ignored`) with `resolved_at` set to the current time. -/
theorem resolve_on_terminal_rewrites (now : Nat) (st : StoreState) (cid : Nat)
    (strategy : ResolutionStrategy) (c : Conflict)
    (hc : getConflict st.conflicts cid = some c) (_hterm : c.isTerminal = true) :
    ∃ st', resolveConflict now st cid strategy = .ok st' ∧
      getConflict st'.conflicts cid =
        some { c with status := .resolved, resolvedAt := some now } ∧
      st'.conflicts.map Conflict.id = st.conflicts.map Conflict.id := by
  have hres : resolveConflict now st cid strategy =
      .ok { applyStrategy st c strategy with
        conflicts := updateConflictRows (applyStrategy st c strategy).conflicts
          (c.markResolved now) } := by
    unfold resolveConflict
    rw [hc]
  refine ⟨_, hres, ?_, ?_⟩
  · rw [applyStrategy_conflicts, getConflict_updateConflictRows, hc]
    simp [Conflict.markResolved]
  · rw [applyStrategy_conflicts, updateConflictRows_ids]

/-- C2 (witness): the amended theorem applied to the concrete terminal
conflict of `exStoreIgnored`. -/
theorem resolve_on_terminal_rewrites_witness :
    ∃ st', resolveConflict 200 exStoreIgnored 7 .disableSkillA = .ok st' ∧
      getConflict st'.conflicts 7 =
        some { exConflictIgnored with status := .resolved, resolvedAt := some 200 } ∧
      st'.conflicts.map Conflict.id = exStoreIgnored.conflicts.map Conflict.id :=
  resolve_on_terminal_rewrites 200 exStoreIgnored 7 .disableSkillA exConflictIgnored rfl rfl

/-- C3: `SkillServiceImpl::remove` deletes the skill's content and registry
row but never touches the conflict store — `ConflictRepository::delete_by_skill`
(the documented cascade) has no caller — so the stored conflict that
references the removed skill survives the removal.  Evaluated at a concrete
store. -/
theorem remove_skill_leaves_conflicts :
    removeSkill exStore (strL "a") =
      .ok { exStore with skills := [exSkillB], contents := [(2, strL "- x")] } ∧
    exStore.conflicts = [exConflictUnresolved] ∧
    exConflictUnresolved.skillAId = exSkillA.id ∧
    getSkillByName exStore.skills (strL "a") = some exSkillA := by
  refine ⟨rfl, rfl, rfl, rfl⟩

/-- Arithmetic range lemma: the wrapping `i32` addition agrees with the
mathematical sum whenever that sum lies in the `i32` range. -/
theorem i32WrappingAdd_eq_of_range (x y : Int) (h1 : -(2 ^ 31) ≤ x + y)
    (h2 : x + y < 2 ^ 31) : i32WrappingAdd x y = x + y := by
  unfold i32WrappingAdd
  have e1 : (2 : Int) ^ 31 = 2147483648 := by norm_num
  have e2 : (2 : Int) ^ 32 = 4294967296 := by norm_num
  rw [e1] at h1 h2 ⊢
  rw [e2, Int.emod_eq_of_lt (by omega) (by omega)]
  omega

/-- A skill whose priority sits at `i32::MAX`, as the builder and the
database column admit. -/
def exSkillMaxB : Skill :=
  { id := 2, name := strL "b", scope := .global, enabled := true, priority := 2147483647,
    contentHash := strL "h2", updatedAt := 0 }

/-- A store holding skill 1 (priority 50), skill 2 at `i32::MAX`, and the
unresolved conflict between them. -/
def exStoreMax : StoreState :=
  { skills := [exSkillA, exSkillMaxB], contents := [], conflicts := [exConflictUnresolved] }

/-- C9 (counterexample): with skill B's priority at `i32::MAX`, resolving
with `PrioritizeA` stores the wrapped `i32` sum `-2147483639` as skill A's
priority — not B's priority + 10 as the claim states (a debug build panics
on the same addition instead). -/
theorem prioritize_overflow_wraps :
    (resolveConflict 9 exStoreMax 7 .prioritizeA).map
        (fun st => (getSkill st.skills 1).map Skill.priority) =
      .ok (some (-2147483639 : Int)) ∧
    (getSkill exStoreMax.skills 2).map Skill.priority = some (2147483647 : Int) ∧
    (-2147483639 : Int) ≠ 2147483647 + 10 := by
  refine ⟨rfl, rfl, by decide⟩

/-- C9 (amended): with both referenced skills present, `PrioritizeA`
persists only skill A with priority set to the wrapping `i32` sum of B's
priority and 10 — equal to B's priority + 10 whenever that sum stays in the
`i32` range — and every other skill record, in particular B's, reads back
unchanged; `PrioritizeB` is symmetric. -/
theorem prioritize_updates_one_side (now : Nat) (st : StoreState) (cid : Nat) (c : Conflict)
    (sa sb : Skill)
    (hc : getConflict st.conflicts cid = some c)
    (ha : getSkill st.skills c.skillAId = some sa)
    (hb : getSkill st.skills c.skillBId = some sb)
    (hab : c.skillAId ≠ c.skillBId) :
    (∃ st', resolveConflict now st cid .prioritizeA = .ok st' ∧
      getSkill st'.skills c.skillAId =
        some { sa with priority := i32WrappingAdd sb.priority 10 } ∧
      getSkill st'.skills c.skillBId = some sb ∧
      ∀ i, i ≠ c.skillAId → getSkill st'.skills i = getSkill st.skills i) ∧
    (∃ st', resolveConflict now st cid .prioritizeB = .ok st' ∧
      getSkill st'.skills c.skillBId =
        some { sb with priority := i32WrappingAdd sa.priority 10 } ∧
      getSkill st'.skills c.skillAId = some sa ∧
      ∀ i, i ≠ c.skillBId → getSkill st'.skills i = getSkill st.skills i) ∧
    (-(2 ^ 31) ≤ sb.priority + 10 → sb.priority + 10 < 2 ^ 31 →
      i32WrappingAdd sb.priority 10 = sb.priority + 10) ∧
    (-(2 ^ 31) ≤ sa.priority + 10 → sa.priority + 10 < 2 ^ 31 →
      i32WrappingAdd sa.priority 10 = sa.priority + 10) := by
  have haid : sa.id = c.skillAId := getSkill_eq_id ha
  have hbid : sb.id = c.skillBId := getSkill_eq_id hb
  refine ⟨?_, ?_, i32WrappingAdd_eq_of_range _ _, i32WrappingAdd_eq_of_range _ _⟩
  · have hres : resolveConflict now st cid .prioritizeA =
        .ok { applyStrategy st c .prioritizeA with
          conflicts := updateConflictRows (applyStrategy st c .prioritizeA).conflicts
            (c.markResolved now) } := by
      unfold resolveConflict
      rw [hc]
    have hskills : (applyStrategy st c .prioritizeA).skills =
        updateSkillRows st.skills { sa with priority := i32WrappingAdd sb.priority 10 } := by
      simp only [applyStrategy, ha, hb]
    refine ⟨_, hres, ?_, ?_, ?_⟩
    · show getSkill (applyStrategy st c .prioritizeA).skills c.skillAId = _
      rw [hskills]
      have : c.skillAId =
          ({ sa with priority := i32WrappingAdd sb.priority 10 } : Skill).id := haid.symm
      rw [this, getSkill_updateSkillRows_self, ← this, ha]
      rfl
    · show getSkill (applyStrategy st c .prioritizeA).skills c.skillBId = _
      rw [hskills, getSkill_updateSkillRows_ne, hb]
      show sa.id ≠ c.skillBId
      rw [haid]; exact hab
    · intro i hi
      show getSkill (applyStrategy st c .prioritizeA).skills i = _
      rw [hskills, getSkill_updateSkillRows_ne]
      show sa.id ≠ i
      rw [haid]; exact fun hh => hi hh.symm
  · have hres : resolveConflict now st cid .prioritizeB =
        .ok { applyStrategy st c .prioritizeB with
          conflicts := updateConflictRows (applyStrategy st c .prioritizeB).conflicts
            (c.markResolved now) } := by
      unfold resolveConflict
      rw [hc]
    have hskills : (applyStrategy st c .prioritizeB).skills =
        updateSkillRows st.skills { sb with priority := i32WrappingAdd sa.priority 10 } := by
      simp only [applyStrategy, ha, hb]
    refine ⟨_, hres, ?_, ?_, ?_⟩
    · show getSkill (applyStrategy st c .prioritizeB).skills c.skillBId = _
      rw [hskills]
      have : c.skillBId =
          ({ sb with priority := i32WrappingAdd sa.priority 10 } : Skill).id := hbid.symm
      rw [this, getSkill_updateSkillRows_self, ← this, hb]
      rfl
    · show getSkill (applyStrategy st c .prioritizeB).skills c.skillAId = _
      rw [hskills, getSkill_updateSkillRows_ne, ha]
      show sb.id ≠ c.skillAId
      rw [hbid]; exact fun hh => hab hh.symm
    · intro i hi
      show getSkill (applyStrategy st c .prioritizeB).skills i = _
      rw [hskills, getSkill_updateSkillRows_ne]
      show sb.id ≠ i
      rw [hbid]; exact fun hh => hi hh.symm

/-- C9 (witness): the amended theorem applied to the concrete store
`exStore`, whose priorities (50 and 50) are far from the `i32` bounds. -/
theorem prioritize_updates_one_side_witness :
    (∃ st', resolveConflict 9 exStore 7 .prioritizeA = .ok st' ∧
      getSkill st'.skills exConflictUnresolved.skillAId =
        some { exSkillA with priority := i32WrappingAdd exSkillB.priority 10 } ∧
      getSkill st'.skills exConflictUnresolved.skillBId = some exSkillB ∧
      ∀ i, i ≠ exConflictUnresolved.skillAId →
        getSkill st'.skills i = getSkill exStore.skills i) ∧
    (∃ st', resolveConflict 9 exStore 7 .prioritizeB = .ok st' ∧
      getSkill st'.skills exConflictUnresolved.skillBId =
        some { exSkillB with priority := i32WrappingAdd exSkillA.priority 10 } ∧
      getSkill st'.skills exConflictUnresolved.skillAId = some exSkillA ∧
      ∀ i, i ≠ exConflictUnresolved.skillBId →
        getSkill st'.skills i = getSkill exStore.skills i) ∧
    (-(2 ^ 31) ≤ exSkillB.priority + 10 → exSkillB.priority + 10 < 2 ^ 31 →
      i32WrappingAdd exSkillB.priority 10 = exSkillB.priority + 10) ∧
    (-(2 ^ 31) ≤ exSkillA.priority + 10 → exSkillA.priority + 10 < 2 ^ 31 →
      i32WrappingAdd exSkillA.priority 10 = exSkillA.priority + 10) :=
  prioritize_updates_one_side 9 exStore 7 exConflictUnresolved exSkillA exSkillB rfl rfl rfl
    (by decide)

/-- C10: enabling an already-enabled skill (and disabling an
already-disabled one) returns success with the store untouched and no merge
rebuild triggered: the service returns before any repository update or
merge call. -/
theorem enable_disable_noop (now : Nat) (st : StoreState) (name : Str) (skill : Skill)
    (h : getSkillByName st.skills name = some skill) :
    (skill.enabled = true → enableSkill now st name = .ok (st, [])) ∧
    (skill.enabled = false → disableSkill now st name = .ok (st, [])) := by
  constructor <;> intro he
  · unfold enableSkill
    rw [h]
    simp [he]
  · unfold disableSkill
    rw [h]
    simp [he]

/-- C10 (witness): the theorem applied to the enabled skill `a` and the
disabled skill `b` of `exStore`. -/
theorem enable_disable_noop_witness :
    enableSkill 9 exStore (strL "a") = .ok (exStore, []) ∧
    disableSkill 9 exStore (strL "b") = .ok (exStore, []) :=
  ⟨(enable_disable_noop 9 exStore (strL "a") exSkillA rfl).1 rfl,
    (enable_disable_noop 9 exStore (strL "b") exSkillB rfl).2 rfl⟩

/-! Output writer (infra/storage.rs) and merge ordering (infra/database.rs). -/

/-- Embedding of `FileOutputStorage::write_claude_md` (`infra/storage.rs`,
lines 125-138).  After ensuring the parent directory it calls
`tokio::fs::write(&path, content)`, which opens the target path with
truncation and then writes the bytes in place.  This lists the successive
contents observable at the target path during the operation: the previous
content, the empty file right after the truncating open, and the new
content once the write completes.  A failure or crash between the open and
the completed write leaves an intermediate content behind. -/
def write_claude_md_observable (previous newContent : Str) : List Str :=
  [previous, [], newContent]

/-- The atomic-replace contract stated by the spec for the Output Writer:
at every observable instant the output path holds either the previous or
the new content, never a truncated intermediate. -/
def atomicReplace (states : List Str) (previous newContent : Str) : Prop :=
  ∀ s ∈ states, s = previous ∨ s = newContent

/-- C4: the write is not atomic.  With previous content `old merged output`
and new content `new merged output`, the empty (truncated) file is
observable at the output path mid-write, and it is neither the previous nor
the new content — so a crash or write failure loses the previous content
and exposes a truncated file, contradicting the claim's
write-temp-then-rename contract. -/
theorem write_claude_md_not_atomic :
    ([] : Str) ∈ write_claude_md_observable (strL "old merged output") (strL "new merged output") ∧
    ([] : Str) ≠ strL "old merged output" ∧
    ([] : Str) ≠ strL "new merged output" ∧
    ¬ atomicReplace (write_claude_md_observable (strL "old merged output")
      (strL "new merged output")) (strL "old merged output") (strL "new merged output") := by
  refine ⟨by decide, by decide, by decide, fun h => ?_⟩
  rcases h [] (by decide) with h1 | h1 <;> exact absurd h1 (by decide)

/-- Embedding of the SQLite `ORDER BY name ASC` comparison on the `name`
column (BINARY collation: bytewise comparison of the UTF-8 encodings, which
orders by code point, shorter prefixes first). -/
def lexByteLe : Str → Str → Bool
  | [], _ => true
  | _ :: _, [] => false
  | a :: as, b :: bs =>
    if a.toNat < b.toNat then true
    else if b.toNat < a.toNat then false
    else lexByteLe as bs

theorem lexByteLe_total (a b : Str) : (lexByteLe a b || lexByteLe b a) = true := by
  induction a generalizing b with
  | nil => simp [lexByteLe]
  | cons x xs ih =>
    cases b with
    | nil => simp [lexByteLe]
    | cons y ys =>
      simp only [lexByteLe]
      rcases Nat.lt_trichotomy x.toNat y.toNat with h | h | h
      · simp [h]
      · simpa [h, Nat.lt_irrefl] using ih ys
      · simp [h, Nat.lt_asymm h]

theorem lexByteLe_trans (a b c : Str) (h1 : lexByteLe a b = true) (h2 : lexByteLe b c = true) :
    lexByteLe a c = true := by
  induction a generalizing b c with
  | nil => rfl
  | cons x xs ih =>
    cases b with
    | nil => simp [lexByteLe] at h1
    | cons y ys =>
      cases c with
      | nil => simp [lexByteLe] at h2
      | cons z zs =>
        simp only [lexByteLe] at h1 h2 ⊢
        rcases Nat.lt_trichotomy x.toNat y.toNat with hxy | hxy | hxy <;>
          rcases Nat.lt_trichotomy y.toNat z.toNat with hyz | hyz | hyz <;>
          simp [hxy, hyz, Nat.lt_irrefl, Nat.lt_asymm] at h1 h2 ⊢ <;>
          first
          | omega
          | (exact ih ys zs h1 h2)

/-- Embedding of the `ORDER BY priority DESC, name ASC` comparison used by
`SqliteSkillRepository::list`, `list_by_scope` and `list_enabled`
(`infra/database.rs`): row `a` sorts no later than row `b` when its
priority is higher, or the priorities are equal and its name is bytewise no
greater. -/
def skillOrderLe (a b : Skill) : Bool :=
  decide (b.priority < a.priority) || (decide (a.priority = b.priority) && lexByteLe a.name b.name)

theorem skillOrderLe_total (a b : Skill) : (skillOrderLe a b || skillOrderLe b a) = true := by
  unfold skillOrderLe
  rcases lt_trichotomy a.priority b.priority with h | h | h
  · simp [h]
  · have := lexByteLe_total a.name b.name
    rcases Bool.or_eq_true_iff.mp this with h2 | h2 <;> simp [h, h2]
  · simp [h]

theorem skillOrderLe_trans (a b c : Skill) (h1 : skillOrderLe a b = true)
    (h2 : skillOrderLe b c = true) : skillOrderLe a c = true := by
  unfold skillOrderLe at h1 h2 ⊢
  simp only [Bool.or_eq_true_iff, Bool.and_eq_true, decide_eq_true_eq] at h1 h2 ⊢
  rcases h1 with h1 | ⟨h1e, h1n⟩
  · rcases h2 with h2 | ⟨h2e, h2n⟩
    · exact Or.inl (h2.trans h1)
    · exact Or.inl (h2e ▸ h1)
  · rcases h2 with h2 | ⟨h2e, h2n⟩
    · exact Or.inl (by rw [h1e]; exact h2)
    · exact Or.inr ⟨h1e.trans h2e, lexByteLe_trans _ _ _ h1n h2n⟩

/-- Embedding of `SqliteSkillRepository::list_enabled` (`infra/database.rs`,
lines 225-237): `SELECT * FROM skills WHERE enabled = 1 ORDER BY priority
DESC, name ASC` over the table rows. -/
def list_enabled (table : List Skill) : List Skill :=
  (table.filter fun s => s.enabled).mergeSort skillOrderLe

/-- Embedding of `SqliteSkillRepository::list_by_scope` (`infra/database.rs`,
lines 210-223): `SELECT * FROM skills WHERE scope_json = ?1 ORDER BY
priority DESC, name ASC`. -/
def list_by_scope (scope : SkillScope) (table : List Skill) : List Skill :=
  (table.filter fun s => decide (s.scope = scope)).mergeSort skillOrderLe

/-- Modelled from the spec: the Merge Engine's selection step.  The
implementation file `services/merge_service.rs` is declared in
`services/mod.rs` but absent from the sources; per the spec the engine
selects the skills with `enabled == true` whose scope matches exactly and
orders them by priority descending then name ascending — the repository
ordering embedded in `skillOrderLe`. -/
def mergeSelection (scope : SkillScope) (table : List Skill) : List Skill :=
  (table.filter fun s => s.enabled && decide (s.scope = scope)).mergeSort skillOrderLe

/-- C5: the merge order is a permutation of the enabled skills of the scope
and is pairwise ordered by priority descending with ties broken by name
ascending: a higher-priority skill always precedes a lower-priority one,
and equal priorities are ordered bytewise-lexicographically by name. -/
theorem merge_order_sorted (scope : SkillScope) (table : List Skill) :
    (mergeSelection scope table).Perm
      (table.filter fun s => s.enabled && decide (s.scope = scope)) ∧
    (mergeSelection scope table).Pairwise fun a b =>
      b.priority < a.priority ∨ (a.priority = b.priority ∧ lexByteLe a.name b.name = true) := by
  constructor
  · exact List.mergeSort_perm _ _
  · have hs := List.sorted_mergeSort skillOrderLe_trans skillOrderLe_total
      (table.filter fun s => s.enabled && decide (s.scope = scope))
    refine hs.imp ?_
    intro a b hab
    simpa [skillOrderLe, Bool.or_eq_true_iff, Bool.and_eq_true, decide_eq_true_eq] using hab

/-- C7: for every pair of instruction lines (one per skill) whose
normalized forms are equal and non-empty, `find_duplicates` emits the
`Duplicate` finding referencing both original lines and their 1-based line
numbers; and on the claim's concrete scenario (`- Use 2-space indentation` /
`- Be consistent` versus `- Use 2-space indentation` / `- Write tests`) the
whole detector returns exactly one conflict, a `Duplicate`. -/
theorem duplicates_reported :
    (∀ (aId bId : Nat) (ca cb : Str) (la lb : Nat) (ia ib : Str),
      (la, ia) ∈ extract_instructions ca → (lb, ib) ∈ extract_instructions cb →
      normalize_instruction ia = normalize_instruction ib →
      normalize_instruction ia ≠ [] →
      duplicateFinding aId bId la ia lb ib ∈ find_duplicates aId ca bId cb) ∧
    (detect_conflicts_internal
      [(0, strL "- Use 2-space indentation\n- Be consistent"),
       (1, strL "- Use 2-space indentation\n- Write tests")]).map Finding.conflictType =
      [ConflictType.duplicate] := by
  constructor
  · intro aId bId ca cb la lb ia ib h1 h2 heq hne
    unfold find_duplicates
    rw [List.mem_flatMap]
    refine ⟨(la, ia), h1, ?_⟩
    rw [List.mem_filterMap]
    refine ⟨(lb, ib), h2, ?_⟩
    simp only
    rw [if_pos ⟨heq, hne⟩]
  · decide

/-- C7 (witness): the matching first lines of the scenario produce the
duplicate finding. -/
theorem duplicates_reported_witness :
    duplicateFinding 0 1 1 (strL "- Use 2-space indentation") 1 (strL "- Use 2-space indentation")
      ∈ find_duplicates 0 (strL "- Use 2-space indentation\n- Be consistent") 1
        (strL "- Use 2-space indentation\n- Write tests") :=
  duplicates_reported.1 0 1 _ _ 1 1 _ _ (by decide) (by decide) rfl (by decide)

/-- The token set of a line, following the spec's words: tokenize on
whitespace, discard tokens of length at most 3 and stop-list tokens, and
collect the remainder as a set. -/
def tokenSet (s : Str) : Finset Str := (topicTokens s).toFinset

/-- The topic-overlap predicate as the spec states it: both token sets
non-empty and the overlap ratio strictly above 0.3, i.e.
`10 * |intersection| > 3 * min(|set_a|, |set_b|)`. -/
def sameTopicSpec (a b : Str) : Prop :=
  tokenSet a ≠ ∅ ∧ tokenSet b ≠ ∅ ∧
    10 * (tokenSet a ∩ tokenSet b).card > 3 * min (tokenSet a).card (tokenSet b).card

theorem dedup_toFinset (l : List Str) : l.dedup.toFinset = l.toFinset := by
  apply Finset.ext
  intro x
  simp [List.mem_dedup]

theorem isEmpty_dedup_iff (l : List Str) : l.dedup.isEmpty = true ↔ l.toFinset = ∅ := by
  rw [List.isEmpty_iff, ← dedup_toFinset, List.toFinset_eq_empty_iff]

/-- C8: the implemented `same_topic` test realizes the spec's set
semantics: it is false whenever either token set is empty, and otherwise
true exactly when the distinct-token overlap exceeds 30 percent of the
smaller set. -/
theorem same_topic_matches_spec (a b : Str) :
    same_topic a b = true ↔ sameTopicSpec a b := by
  have hca : (tokenSet a).card = (topicTokens a).dedup.length := by
    rw [tokenSet, ← dedup_toFinset, List.toFinset_card_of_nodup (List.nodup_dedup _)]
  have hcb : (tokenSet b).card = (topicTokens b).dedup.length := by
    rw [tokenSet, ← dedup_toFinset, List.toFinset_card_of_nodup (List.nodup_dedup _)]
  have hint : (tokenSet a ∩ tokenSet b).card =
      ((topicTokens a).dedup.filter fun w => decide (w ∈ (topicTokens b).dedup)).length := by
    rw [← List.toFinset_card_of_nodup ((List.nodup_dedup (topicTokens a)).filter _)]
    congr 1
    apply Finset.ext
    intro x
    simp [tokenSet, List.mem_dedup, List.mem_filter]
  rw [same_topic, sameTopicSpec]
  by_cases ha : (topicTokens a).dedup.isEmpty
  · have : tokenSet a = ∅ := (isEmpty_dedup_iff _).mp ha
    simp [ha, this]
  · by_cases hb : (topicTokens b).dedup.isEmpty
    · have : tokenSet b = ∅ := (isEmpty_dedup_iff _).mp hb
      simp [ha, hb, this]
    · have hna : tokenSet a ≠ ∅ := fun h => ha ((isEmpty_dedup_iff _).mpr h)
      have hnb : tokenSet b ≠ ∅ := fun h => hb ((isEmpty_dedup_iff _).mpr h)
      have ha2 : (topicTokens a).dedup.isEmpty = false := Bool.eq_false_iff.mpr ha
      have hb2 : (topicTokens b).dedup.isEmpty = false := Bool.eq_false_iff.mpr hb
      have hcond : ¬ (((topicTokens a).dedup.isEmpty || (topicTokens b).dedup.isEmpty) = true) := by
        simp [ha2, hb2]
      rw [hca, hcb, hint, if_neg hcond, decide_eq_true_eq]
      constructor
      · intro h; exact ⟨hna, hnb, h⟩
      · intro h; exact h.2.2

/-! Symmetry of detection (claim about swapping the two input skills). -/

/-- Swap the two sides of a finding: skill ids, line numbers and content
snippets; the type, description and suggestion are side-independent. -/
def swapFinding (f : Finding) : Finding :=
  { f with
    skillAId := f.skillBId
    skillBId := f.skillAId
    lineA := f.lineB
    lineB := f.lineA
    contentA := f.contentB
    contentB := f.contentA }

theorem swapFinding_swapFinding (f : Finding) : swapFinding (swapFinding f) = f := rfl

/-- Membership characterization of `find_duplicates`. -/
theorem mem_find_duplicates {f : Finding} {a b : Nat} {ca cb : Str} :
    f ∈ find_duplicates a ca b cb ↔
      ∃ pa ∈ extract_instructions ca, ∃ pb ∈ extract_instructions cb,
        (normalize_instruction pa.2 = normalize_instruction pb.2 ∧
          normalize_instruction pa.2 ≠ []) ∧
        f = duplicateFinding a b pa.1 pa.2 pb.1 pb.2 := by
  unfold find_duplicates
  simp only [List.mem_flatMap, List.mem_filterMap, Option.ite_none_right_eq_some,
    Option.some_inj]
  constructor
  · rintro ⟨pa, hpa, pb, hpb, hcond, hval⟩
    exact ⟨pa, hpa, pb, hpb, hcond, hval.symm⟩
  · rintro ⟨pa, hpa, pb, hpb, hcond, hval⟩
    exact ⟨pa, hpa, pb, hpb, hcond, hval.symm⟩

/-- Membership characterization of `find_contradictions`. -/
theorem mem_find_contradictions {f : Finding} {a b : Nat} {ca cb : Str} :
    f ∈ find_contradictions a ca b cb ↔
      ∃ pa ∈ extract_instructions ca, ∃ pb ∈ extract_instructions cb, ∃ p,
        contradiction_pairs.find?
          (contradictionPred (toLowercase pa.2) (toLowercase pb.2)) = some p ∧
        f = contradictionFinding a b pa.1 pa.2 pb.1 pb.2 p.1 p.2 := by
  unfold find_contradictions
  simp only [List.mem_flatMap, List.mem_filterMap, Option.map_eq_some']
  constructor
  · rintro ⟨pa, hpa, pb, hpb, p, hfind, hval⟩
    exact ⟨pa, hpa, pb, hpb, p, hfind, hval.symm⟩
  · rintro ⟨pa, hpa, pb, hpb, p, hfind, hval⟩
    exact ⟨pa, hpa, pb, hpb, p, hfind, hval.symm⟩

/-- The number of distinct shared tokens is symmetric in the two lines. -/
theorem inter_length_comm (l1 l2 : List Str) :
    (l1.dedup.filter fun w => decide (w ∈ l2)).length =
      (l2.dedup.filter fun w => decide (w ∈ l1)).length := by
  have h : ∀ x y : List Str,
      (x.dedup.filter fun w => decide (w ∈ y)).length = (x.toFinset ∩ y.toFinset).card := by
    intro x y
    rw [← List.toFinset_card_of_nodup ((List.nodup_dedup x).filter _)]
    congr 1
    apply Finset.ext
    intro z
    simp [List.mem_dedup, List.mem_filter]
  rw [h, h, Finset.inter_comm]

/-- The topic-overlap test is symmetric. -/
theorem same_topic_comm (a b : Str) : same_topic a b = same_topic b a := by
  by_cases ha : (topicTokens a).dedup.isEmpty <;> by_cases hb : (topicTokens b).dedup.isEmpty <;>
    simp [same_topic, ha, hb]
  rw [inter_length_comm, min_comm]

/-- The per-antonym-pair contradiction test is symmetric in the two lines. -/
theorem contradictionPred_comm (la lb : Str) (p : Str × Str) :
    contradictionPred lb la p = contradictionPred la lb p := by
  unfold contradictionPred
  rw [same_topic_comm lb la]
  cases containsSubstring p.1 la <;> cases containsSubstring p.2 la <;>
    cases containsSubstring p.1 lb <;> cases containsSubstring p.2 lb <;> rfl

/-- Pointwise equal predicates find the same first element. -/
theorem find?_ext {α : Type} (p q : α → Bool) (l : List α) (h : ∀ x, p x = q x) :
    l.find? p = l.find? q := by
  induction l with
  | nil => rfl
  | cons t ts ih => cases hqt : q t <;> simp [List.find?_cons, h t, hqt, ih]

/-- Swapping the two skills mirrors every duplicate finding. -/
theorem mem_find_duplicates_swap (f : Finding) (a b : Nat) (ca cb : Str) :
    f ∈ find_duplicates a ca b cb ↔ swapFinding f ∈ find_duplicates b cb a ca := by
  rw [mem_find_duplicates, mem_find_duplicates]
  constructor
  · rintro ⟨pa, hpa, pb, hpb, ⟨heq, hne⟩, rfl⟩
    exact ⟨pb, hpb, pa, hpa, ⟨heq.symm, heq ▸ hne⟩, rfl⟩
  · rintro ⟨pb, hpb, pa, hpa, ⟨heq, hne⟩, hswap⟩
    refine ⟨pa, hpa, pb, hpb, ⟨heq.symm, heq ▸ hne⟩, ?_⟩
    have h2 := congrArg swapFinding hswap
    rw [swapFinding_swapFinding] at h2
    exact h2

/-- Swapping the two skills mirrors every contradiction finding, citing the
same antonym pair. -/
theorem mem_find_contradictions_swap (f : Finding) (a b : Nat) (ca cb : Str) :
    f ∈ find_contradictions a ca b cb ↔ swapFinding f ∈ find_contradictions b cb a ca := by
  rw [mem_find_contradictions, mem_find_contradictions]
  constructor
  · rintro ⟨pa, hpa, pb, hpb, p, hfind, rfl⟩
    refine ⟨pb, hpb, pa, hpa, p, ?_, rfl⟩
    rw [find?_ext _ (contradictionPred (toLowercase pa.2) (toLowercase pb.2)) _
      (contradictionPred_comm _ _)]
    exact hfind
  · rintro ⟨pb, hpb, pa, hpa, p, hfind, hswap⟩
    refine ⟨pa, hpa, pb, hpb, p, ?_, ?_⟩
    · rw [← find?_ext (contradictionPred (toLowercase pb.2) (toLowercase pa.2)) _ _
        (contradictionPred_comm _ _)]
      exact hfind
    · have h2 := congrArg swapFinding hswap
      rw [swapFinding_swapFinding] at h2
      exact h2

/-- C6: detection over `[A, B]` and over `[B, A]` reports the same set of
findings with the two sides' fields (skill ids, line numbers, content
snippets) swapped; the conflict type, description (including the cited
antonym pair) and suggestion are identical. -/
theorem detect_symmetric (aId bId : Nat) (ca cb : Str) (f : Finding) :
    f ∈ detect_conflicts_internal [(aId, ca), (bId, cb)] ↔
      swapFinding f ∈ detect_conflicts_internal [(bId, cb), (aId, ca)] := by
  have h1 : ∀ (x y : Nat × Str), detect_conflicts_internal [x, y] =
      find_duplicates x.1 x.2 y.1 y.2 ++ find_contradictions x.1 x.2 y.1 y.2 := by
    intro x y
    simp [detect_conflicts_internal]
  rw [h1, h1]
  simp only [List.mem_append]
  exact or_congr (mem_find_duplicates_swap f aId bId ca cb)
    (mem_find_contradictions_swap f aId bId ca cb)
